import Mathlib

/-!
Verification of the `ReverseLayer` component of caffe-lang-track
(src/include/caffe/layers/reverse_layer.hpp).

The repository ships only the class declaration; the bodies of
`Reshape`, `Forward_cpu`, `Forward_gpu`, `Backward_cpu` and `Backward_gpu`
are not part of the provided sources.  The inline members
(`MinBottomBlobs`, `MaxBottomBlobs`, `ExactNumTopBlobs`,
`AllowForceBackward`) are embedded directly from the header; the
operation bodies are modelled from the specification, as marked on each
definition.  Blobs are modelled at batch granularity: a list whose
`i`-th entry is the whole `C·H·W` block of example `i`.
-/

namespace ReverseLayer

/-- From the header: declared minimum number of bottom (input) blobs, 1. -/
def MinBottomBlobs : Nat := 1

/-- From the header: declared maximum number of bottom (input) blobs, 2. -/
def MaxBottomBlobs : Nat := 2

/-- From the header: declared exact number of top (output) blobs, 1. -/
def ExactNumTopBlobs : Nat := 1

/-- From the header: `AllowForceBackward(bottom_index)` returns
`bottom_index != 1` — the reverse-segment blob (bottom index 1) can never
be forced to receive gradients. -/
def AllowForceBackward (bottom_index : Int) : Bool := bottom_index != 1

/-- Modelled from the spec: (§3 SegmentSpec) the second blob is read as
consecutive `(start, length)` pairs; a pair whose start is negative ends
interpretation, and a trailing unmatched element is ignored.  A negative
length is clamped to the empty segment by `Int.toNat`. -/
def parseSegments : List Int → List (Nat × Nat)
  | s :: l :: rest => if s < 0 then [] else (s.toNat, l.toNat) :: parseSegments rest
  | _ => []

/-- Modelled from the spec: (§4.1 Forward, with SegmentSpec) one segment
`(start, length)` sets `Offsets[start+k] = start+length-1-k` for every
`k` in `[0, length)`; a write whose destination is outside the array is
dropped (`List.set` out of range is the identity). -/
def applySegment (off : List Nat) (p : Nat × Nat) : List Nat :=
  (List.range p.2).foldl (fun o k => o.set (p.1 + k) (p.1 + p.2 - 1 - k)) off

/-- Modelled from the spec: (§4.1 Forward) the offset map.  Without a
SegmentSpec it is the full reversal `Offsets[i] = N-1-i`; with one it
starts from the identity `Offsets[i] = i` and applies each parsed
segment in order. -/
def reverse_offsets (N : Nat) (sspec : Option (List Int)) : List Nat :=
  match sspec with
  | none => (List.range N).map (fun i => N - 1 - i)
  | some s => (parseSegments s).foldl applySegment (List.range N)

/-- Modelled from the spec: (§4.1 Forward, copy step) the forward copy is
a gather, `output[i] = input[Offsets[i]]`. -/
def gather {α : Type} [Inhabited α] (off : List Nat) (input : List α) : List α :=
  off.map (fun j => input.getD j default)

/-- Modelled from the spec: (§4.1 Backward) the backward copy is a
scatter: for each batch index `i` in `[0, n)`,
`input_grad[Offsets[i]] = output_grad[i]`, overwriting (not accumulating
into) the previous contents `pre`. -/
def scatter {α : Type} [Inhabited α] (n : Nat) (off : List Nat) (g : List α)
    (pre : List α) : List α :=
  (List.range n).foldl (fun acc i => acc.set (off.getD i 0) (g.getD i default)) pre

/-- State touched by a forward pass: the primary bottom blob, the
optional SegmentSpec blob, and the top blob (whatever it held before). -/
structure ForwardState (α : Type) where
  bottom0 : List α
  bottom1 : Option (List Int)
  top : List α

/-- Modelled from the spec: (§4.1 Forward) `Forward_cpu` recomputes the
offsets and overwrites the top blob with the gather; the bottom blobs
are not mutated. -/
def Forward_cpu {α : Type} [Inhabited α] (s : ForwardState α) : ForwardState α :=
  { s with top := gather (reverse_offsets s.bottom0.length s.bottom1) s.bottom0 }

/-- State touched by a backward pass: the top gradient, the propagate
flags, the primary bottom gradient buffer (with its pre-existing
contents) and the gradient buffer slot of the SegmentSpec blob. -/
structure BackwardState (α : Type) where
  top_diff : List α
  propagate_down : List Bool
  bottom0_diff : List α
  bottom1_diff : List Int

/-- Modelled from the spec: (§4.1 Backward) when the primary input's
propagate flag is set, `Backward_cpu` scatters the top gradient through
the forward offsets into the primary bottom gradient buffer, overwriting
it; otherwise it is a no-op.  The SegmentSpec gradient slot is never
touched. -/
def Backward_cpu {α : Type} [Inhabited α] (off : List Nat) (s : BackwardState α) :
    BackwardState α :=
  if s.propagate_down.getD 0 false then
    { s with bottom0_diff := scatter s.bottom0_diff.length off s.top_diff s.bottom0_diff }
  else s

/-- Modelled from the spec: (§5) the accelerator forward variant computes
the offsets with the identical sequential logic and runs the copy as a
kernel that writes every output position independently into a fresh
buffer. -/
def Forward_gpu {α : Type} [Inhabited α] (s : ForwardState α) : ForwardState α :=
  let off := reverse_offsets s.bottom0.length s.bottom1
  let newTop := (List.range off.length).foldr
    (fun i acc => acc.set i (s.bottom0.getD (off.getD i 0) default))
    (List.replicate off.length default)
  { s with top := newTop }

/-- Modelled from the spec: (§5) the accelerator scatter loop, written as
explicit tail recursion over the batch indices `i, i+1, ...` with `r`
steps remaining. -/
def scatterGo {α : Type} [Inhabited α] (off : List Nat) (g : List α) :
    Nat → Nat → List α → List α
  | _, 0, acc => acc
  | i, r+1, acc => scatterGo off g (i+1) r (acc.set (off.getD i 0) (g.getD i default))

/-- Modelled from the spec: (§5) the accelerator backward variant; same
offset logic, copy loop expressed through `scatterGo`. -/
def Backward_gpu {α : Type} [Inhabited α] (off : List Nat) (s : BackwardState α) :
    BackwardState α :=
  if s.propagate_down.getD 0 false then
    { s with bottom0_diff := scatterGo off s.top_diff 0 s.bottom0_diff.length s.bottom0_diff }
  else s

/-- Error raised by `Reshape` when arity or dimensional constraints are
violated. -/
inductive ReshapeError where
  | ShapeMismatch
deriving DecidableEq

/-- Blob shape `(N, C, H, W)`. -/
structure Shape where
  num : Nat
  channels : Nat
  height : Nat
  width : Nat
deriving DecidableEq

/-- What `Reshape` establishes on success: the top blob's shape, the
length of the internal `reverse_offset_` array, and the per-example unit
size `reverse_unit_size_`. -/
structure ReshapeResult where
  topShape : Shape
  offsetsLen : Nat
  unitSize : Nat
deriving DecidableEq

/-- Modelled from the spec: (§4.1 Reshape) every parsed segment must lie
inside the batch range `[0, N)`. -/
def specSegmentsInRange (N : Nat) (s : List Int) : Bool :=
  (parseSegments s).all (fun p => decide (p.1 + p.2 ≤ N))

/-- Modelled from the spec: (§4.1 Reshape) checks the declared arity
bounds (min 1 / max 2 bottoms, exactly 1 top) and that the SegmentSpec
implies no segment index outside `[0, N)`; on success the top blob gets
the primary input's shape, the offsets array gets length `N`, and the
unit size is `C·H·W`. -/
def Reshape (numBottom numTop : Nat) (bottomShape : Shape)
    (sspec : Option (List Int)) : Except ReshapeError ReshapeResult :=
  if MinBottomBlobs ≤ numBottom ∧ numBottom ≤ MaxBottomBlobs ∧ numTop = ExactNumTopBlobs then
    if (match sspec with
        | none => true
        | some s => specSegmentsInRange bottomShape.num s) then
      Except.ok ⟨bottomShape, bottomShape.num,
        bottomShape.channels * bottomShape.height * bottomShape.width⟩
    else Except.error ReshapeError.ShapeMismatch
  else Except.error ReshapeError.ShapeMismatch

/-- Decidable test for `i` lying in segment `p = (start, length)`. -/
def segContains (i : Nat) (p : Nat × Nat) : Bool := decide (p.1 ≤ i ∧ i < p.1 + p.2)

/-- Mathematical form of the offset map with segments: the first segment
containing `i` sends it to `start+length-1-(i-start)`; otherwise `i` is
fixed. -/
def segMapFn (segs : List (Nat × Nat)) (i : Nat) : Nat :=
  match segs.find? (segContains i) with
  | some p => p.1 + p.2 - 1 - (i - p.1)
  | none => i

/-- Two segments occupy disjoint index ranges. -/
def segDisjoint (p q : Nat × Nat) : Prop := p.1 + p.2 ≤ q.1 ∨ q.1 + q.2 ≤ p.1

/-- A well-formed segment list for batch size `N`: all segments in range
and pairwise disjoint. -/
def ValidSegments (N : Nat) (segs : List (Nat × Nat)) : Prop :=
  (∀ p ∈ segs, p.1 + p.2 ≤ N) ∧ List.Pairwise segDisjoint segs

instance instDecidableSegDisjoint (p q : Nat × Nat) : Decidable (segDisjoint p q) := by
  unfold segDisjoint
  infer_instance

instance instDecidableValidSegments (N : Nat) (segs : List (Nat × Nat)) :
    Decidable (ValidSegments N segs) := by
  unfold ValidSegments
  infer_instance

theorem foldl_set_length {β : Type} (f : Nat → Nat) (g : Nat → β) (ks : List Nat)
    (acc : List β) :
    (ks.foldl (fun o k => o.set (f k) (g k)) acc).length = acc.length := by
  induction ks generalizing acc with
  | nil => rfl
  | cons k ks ih => rw [List.foldl_cons, ih, List.length_set]

theorem foldr_set_length {β : Type} (f : Nat → Nat) (g : Nat → β) (ks : List Nat)
    (acc : List β) :
    (ks.foldr (fun k o => o.set (f k) (g k)) acc).length = acc.length := by
  induction ks with
  | nil => rfl
  | cons k ks ih => rw [List.foldr_cons, List.length_set, ih]

theorem foldl_set_getD_of_ne {β : Type} (f : Nat → Nat) (g : Nat → β) (ks : List Nat)
    (acc : List β) (j : Nat) (d : β) (h : ∀ k ∈ ks, f k ≠ j) :
    (ks.foldl (fun o k => o.set (f k) (g k)) acc).getD j d = acc.getD j d := by
  induction ks generalizing acc with
  | nil => rfl
  | cons k ks ih =>
    rw [List.foldl_cons, ih _ (fun x hx => h x (List.mem_cons_of_mem _ hx))]
    have hne : f k ≠ j := h k (List.mem_cons_self k ks)
    rw [List.getD_eq_getElem?_getD, List.getElem?_set_ne hne, ← List.getD_eq_getElem?_getD]

theorem foldr_set_getD_of_ne {β : Type} (f : Nat → Nat) (g : Nat → β) (ks : List Nat)
    (acc : List β) (j : Nat) (d : β) (h : ∀ k ∈ ks, f k ≠ j) :
    (ks.foldr (fun k o => o.set (f k) (g k)) acc).getD j d = acc.getD j d := by
  induction ks with
  | nil => rfl
  | cons k ks ih =>
    have hne : f k ≠ j := h k (List.mem_cons_self k ks)
    rw [List.foldr_cons, List.getD_eq_getElem?_getD, List.getElem?_set_ne hne,
      ← List.getD_eq_getElem?_getD]
    exact ih (fun x hx => h x (List.mem_cons_of_mem _ hx))

theorem foldl_set_range_getD {β : Type} (f : Nat → Nat) (g : Nat → β) (n : Nat)
    (acc : List β) (d : β)
    (hinj : ∀ a b, a < n → b < n → f a = f b → a = b)
    (hlt : ∀ k, k < n → f k < acc.length)
    (k : Nat) (hk : k < n) :
    ((List.range n).foldl (fun o i => o.set (f i) (g i)) acc).getD (f k) d = g k := by
  induction n with
  | zero => omega
  | succ m ih =>
    rw [List.range_succ, List.foldl_append, List.foldl_cons, List.foldl_nil]
    rcases Nat.lt_succ_iff_lt_or_eq.mp hk with hkm | hkm
    · have hne : f m ≠ f k := fun he => by
        have := hinj m k (Nat.lt_succ_self m) hk he
        omega
      rw [List.getD_eq_getElem?_getD, List.getElem?_set_ne hne, ← List.getD_eq_getElem?_getD]
      exact ih (fun a b ha hb => hinj a b (Nat.lt_succ_of_lt ha) (Nat.lt_succ_of_lt hb))
        (fun j hj => hlt j (Nat.lt_succ_of_lt hj)) hkm
    · subst hkm
      have hlen : f k < ((List.range k).foldl (fun o i => o.set (f i) (g i)) acc).length := by
        rw [foldl_set_length]
        exact hlt k hk
      rw [List.getD_eq_getElem?_getD, List.getElem?_set_self hlen]
      rfl

theorem foldr_set_range_getD {β : Type} (g : Nat → β) (n : Nat) (acc : List β) (d : β)
    (hlen : n ≤ acc.length) (k : Nat) (hk : k < n) :
    ((List.range n).foldr (fun i o => o.set i (g i)) acc).getD k d = g k := by
  induction n generalizing acc with
  | zero => omega
  | succ m ih =>
    rw [List.range_succ, List.foldr_append, List.foldr_cons, List.foldr_nil]
    rcases Nat.lt_succ_iff_lt_or_eq.mp hk with hkm | hkm
    · exact ih (acc.set m (g m)) (by rw [List.length_set]; omega) hkm
    · subst hkm
      have hne : ∀ x ∈ List.range k, (fun i => i) x ≠ k := by
        intro x hx
        rw [List.mem_range] at hx
        show x ≠ k
        omega
      have hstep := foldr_set_getD_of_ne (fun i => i) g (List.range k) (acc.set k (g k)) k d hne
      rw [hstep, List.getD_eq_getElem?_getD, List.getElem?_set_self (by omega)]
      rfl

theorem applySegment_length (off : List Nat) (p : Nat × Nat) :
    (applySegment off p).length = off.length :=
  foldl_set_length (fun k => p.1 + k) (fun k => p.1 + p.2 - 1 - k) (List.range p.2) off

theorem applySegment_getD_of_notin (off : List Nat) (p : Nat × Nat) (j : Nat) (d : Nat)
    (h : ¬ (p.1 ≤ j ∧ j < p.1 + p.2)) :
    (applySegment off p).getD j d = off.getD j d := by
  apply foldl_set_getD_of_ne
  intro k hk
  rw [List.mem_range] at hk
  show p.1 + k ≠ j
  omega

theorem applySegment_getD_of_in (off : List Nat) (p : Nat × Nat) (k : Nat)
    (hk : k < p.2) (hrange : p.1 + p.2 ≤ off.length) :
    (applySegment off p).getD (p.1 + k) 0 = p.1 + p.2 - 1 - k :=
  foldl_set_range_getD (fun j => p.1 + j) (fun j => p.1 + p.2 - 1 - j) p.2 off 0
    (fun a b _ _ hab => Nat.add_left_cancel hab)
    (fun j hj => by show p.1 + j < off.length; omega) k hk

theorem foldl_applySegment_length (segs : List (Nat × Nat)) (off : List Nat) :
    (segs.foldl applySegment off).length = off.length := by
  induction segs generalizing off with
  | nil => rfl
  | cons p rest ih => rw [List.foldl_cons, ih, applySegment_length]

theorem reverse_offsets_length (N : Nat) (sspec : Option (List Int)) :
    (reverse_offsets N sspec).length = N := by
  cases sspec with
  | none => simp [reverse_offsets]
  | some s =>
    unfold reverse_offsets
    rw [foldl_applySegment_length, List.length_range]

theorem foldl_applySegment_getD_of_out (segs : List (Nat × Nat)) (off : List Nat)
    (i d : Nat) (hout : ∀ p ∈ segs, ¬ (p.1 ≤ i ∧ i < p.1 + p.2)) :
    (segs.foldl applySegment off).getD i d = off.getD i d := by
  induction segs generalizing off with
  | nil => rfl
  | cons p rest ih =>
    rw [List.foldl_cons, ih _ (fun q hq => hout q (List.mem_cons_of_mem _ hq)),
      applySegment_getD_of_notin]
    exact hout p (List.mem_cons_self _ _)

theorem foldl_applySegment_getD (segs : List (Nat × Nat)) (off : List Nat) (N : Nat)
    (hlen : off.length = N)
    (hrange : ∀ p ∈ segs, p.1 + p.2 ≤ N)
    (hdisj : List.Pairwise segDisjoint segs)
    (i : Nat) :
    (segs.foldl applySegment off).getD i 0 =
      match segs.find? (segContains i) with
      | some p => p.1 + p.2 - 1 - (i - p.1)
      | none => off.getD i 0 := by
  induction segs generalizing off with
  | nil => rfl
  | cons p rest ih =>
    rw [List.pairwise_cons] at hdisj
    obtain ⟨hd1, hd2⟩ := hdisj
    rw [List.foldl_cons]
    have hlen2 : (applySegment off p).length = N := by rw [applySegment_length, hlen]
    rw [ih (applySegment off p) hlen2 (fun q hq => hrange q (List.mem_cons_of_mem _ hq)) hd2]
    by_cases hp : segContains i p = true
    · have hpc : p.1 ≤ i ∧ i < p.1 + p.2 := by simpa [segContains] using hp
      have hnone : rest.find? (segContains i) = none := by
        rw [List.find?_eq_none]
        intro q hq hcq
        have hqc : q.1 ≤ i ∧ i < q.1 + q.2 := by simpa [segContains] using hcq
        rcases hd1 q hq with h1 | h1 <;> omega
      rw [hnone, List.find?_cons_of_pos _ hp]
      have h2 := applySegment_getD_of_in off p (i - p.1) (by omega)
        (by rw [hlen]; exact hrange p (List.mem_cons_self _ _))
      rw [show p.1 + (i - p.1) = i by omega] at h2
      exact h2
    · rw [List.find?_cons_of_neg _ hp]
      cases hfind : rest.find? (segContains i) with
      | some q => rfl
      | none =>
        have hpc : ¬ (p.1 ≤ i ∧ i < p.1 + p.2) := by simpa [segContains] using hp
        exact applySegment_getD_of_notin off p i 0 hpc

theorem reverse_offsets_seg_getD (N : Nat) (sspec : List Int)
    (hrange : ∀ p ∈ parseSegments sspec, p.1 + p.2 ≤ N)
    (hdisj : List.Pairwise segDisjoint (parseSegments sspec))
    (i : Nat) (hi : i < N) :
    (reverse_offsets N (some sspec)).getD i 0 = segMapFn (parseSegments sspec) i := by
  unfold reverse_offsets segMapFn
  rw [foldl_applySegment_getD (parseSegments sspec) (List.range N) N
    (List.length_range N) hrange hdisj i]
  cases hfind : (parseSegments sspec).find? (segContains i) with
  | some q => rfl
  | none =>
    have : (List.range N).getD i 0 = i := by
      rw [List.getD_eq_getElem (List.range N) 0 (by simpa using hi)]
      simp
    simpa using this

theorem segMapFn_eq_of_mem (segs : List (Nat × Nat))
    (hdisj : List.Pairwise segDisjoint segs) (p : Nat × Nat) (hp : p ∈ segs)
    (i : Nat) (hi : p.1 ≤ i ∧ i < p.1 + p.2) :
    segMapFn segs i = p.1 + p.2 - 1 - (i - p.1) := by
  induction segs with
  | nil => simp at hp
  | cons q rest ih =>
    rw [List.pairwise_cons] at hdisj
    obtain ⟨hd1, hd2⟩ := hdisj
    rcases List.mem_cons.mp hp with hpq | hpr
    · subst hpq
      unfold segMapFn
      rw [List.find?_cons_of_pos _ (by simp [segContains]; omega)]
    · have hq : ¬ segContains i q = true := by
        intro hc
        have hqc : q.1 ≤ i ∧ i < q.1 + q.2 := by simpa [segContains] using hc
        rcases hd1 p hpr with h1 | h1 <;> omega
      unfold segMapFn
      rw [List.find?_cons_of_neg _ hq]
      exact ih hd2 hpr

theorem segMapFn_lt (N : Nat) (segs : List (Nat × Nat))
    (hrange : ∀ p ∈ segs, p.1 + p.2 ≤ N) (i : Nat) (hi : i < N) :
    segMapFn segs i < N := by
  unfold segMapFn
  cases hfind : segs.find? (segContains i) with
  | none => exact hi
  | some p =>
    have hp := List.mem_of_find?_eq_some hfind
    have h1 := hrange p hp
    have h2 : p.1 ≤ i ∧ i < p.1 + p.2 := by
      simpa [segContains] using List.find?_some hfind
    show p.1 + p.2 - 1 - (i - p.1) < N
    omega

theorem segMapFn_involution (segs : List (Nat × Nat))
    (hdisj : List.Pairwise segDisjoint segs) (i : Nat) :
    segMapFn segs (segMapFn segs i) = i := by
  cases hfind : segs.find? (segContains i) with
  | none =>
    have h1 : segMapFn segs i = i := by unfold segMapFn; rw [hfind]
    rw [h1, h1]
  | some p =>
    have hp : p ∈ segs := List.mem_of_find?_eq_some hfind
    have hc : p.1 ≤ i ∧ i < p.1 + p.2 := by
      simpa [segContains] using List.find?_some hfind
    have h1 : segMapFn segs i = p.1 + p.2 - 1 - (i - p.1) := by
      unfold segMapFn; rw [hfind]
    rw [h1, segMapFn_eq_of_mem segs hdisj p hp (p.1 + p.2 - 1 - (i - p.1)) (by omega)]
    omega

theorem scatter_length {α : Type} [Inhabited α] (n : Nat) (off : List Nat)
    (g pre : List α) : (scatter n off g pre).length = pre.length :=
  foldl_set_length (fun i => off.getD i 0) (fun i => g.getD i default) (List.range n) pre

theorem scatter_getD_hit {α : Type} [Inhabited α] (n : Nat) (off : List Nat)
    (g pre : List α) (d : α)
    (hinj : ∀ a b, a < n → b < n → off.getD a 0 = off.getD b 0 → a = b)
    (hlt : ∀ i, i < n → off.getD i 0 < pre.length) (i : Nat) (hi : i < n) :
    (scatter n off g pre).getD (off.getD i 0) d = g.getD i default :=
  foldl_set_range_getD (fun j => off.getD j 0) (fun j => g.getD j default) n pre d
    hinj hlt i hi

theorem scatter_getD_miss {α : Type} [Inhabited α] (n : Nat) (off : List Nat)
    (g pre : List α) (j : Nat) (d : α)
    (h : ∀ i, i < n → off.getD i 0 ≠ j) :
    (scatter n off g pre).getD j d = pre.getD j d := by
  apply foldl_set_getD_of_ne
  intro k hk
  rw [List.mem_range] at hk
  exact h k hk

theorem scatterGo_eq_foldl {α : Type} [Inhabited α] (off : List Nat) (g : List α)
    (r : Nat) (i : Nat) (acc : List α) :
    scatterGo off g i r acc
      = (List.range' i r).foldl (fun a j => a.set (off.getD j 0) (g.getD j default)) acc := by
  induction r generalizing i acc with
  | zero => rfl
  | succ m ih =>
    rw [List.range'_succ, List.foldl_cons, scatterGo]
    exact ih (i + 1) (acc.set (off.getD i 0) (g.getD i default))

theorem scatterGo_eq_scatter {α : Type} [Inhabited α] (off : List Nat) (g acc : List α)
    (n : Nat) : scatterGo off g 0 n acc = scatter n off g acc := by
  rw [scatterGo_eq_foldl]
  unfold scatter
  rw [List.range_eq_range']

theorem foldr_set_range_eq_gather {α : Type} [Inhabited α] (off : List Nat)
    (input : List α) :
    (List.range off.length).foldr
        (fun i acc => acc.set i (input.getD (off.getD i 0) default))
        (List.replicate off.length default)
      = gather off input := by
  apply List.ext_getElem
  · rw [foldr_set_length (fun i => i) (fun i => input.getD (off.getD i 0) default)]
    simp [gather]
  · intro i h1 h2
    have hlen : (List.replicate off.length (default : α)).length = off.length := by simp
    have hi : i < off.length := by
      have := h1
      rw [foldr_set_length (fun i => i) (fun i => input.getD (off.getD i 0) default)] at this
      simpa using this
    rw [← List.getD_eq_getElem _ default h1, ← List.getD_eq_getElem _ default h2]
    rw [foldr_set_range_getD (fun j => input.getD (off.getD j 0) default) off.length
      (List.replicate off.length default) default (by simp) i hi]
    unfold gather
    rw [List.getD_eq_getElem off 0 hi,
      List.getD_eq_getElem (List.map (fun j => input.getD j default) off) default
        (by simpa using hi)]
    simp

/-- Claim C10: `AllowForceBackward bottom_index` returns `false` only for
`bottom_index = 1` and `true` for every other integer argument, including
index 0 and out-of-range indices such as 2 or negative values, so forced
backpropagation is refused solely for the SegmentSpec slot. -/
theorem C10_allow_force_backward :
    (∀ b : Int, AllowForceBackward b = true ↔ b ≠ 1) ∧
    AllowForceBackward 0 = true ∧ AllowForceBackward 1 = false ∧
    AllowForceBackward 2 = true ∧ AllowForceBackward (-1) = true := by
  refine ⟨?_, rfl, rfl, rfl, rfl⟩
  intro b
  simp [AllowForceBackward]

/-- Claim C10 witness: concrete instance of the characterisation at
`bottom_index = 2`. -/
theorem C10_allow_force_backward_witness : AllowForceBackward 2 = true ↔ (2 : Int) ≠ 1 :=
  C10_allow_force_backward.1 2

/-- Claim C4: Backward never writes the gradient slot of the second
(SegmentSpec) input, whatever the propagate flags are, and the layer
declares gradient propagation to bottom index 1 disallowed
(`AllowForceBackward 1 = false`), so the scheduler skips it
unconditionally. -/
theorem C4_no_gradient_to_segment_spec :
    AllowForceBackward 1 = false ∧
    ∀ (α : Type) [Inhabited α] (off : List Nat) (s : BackwardState α),
      (Backward_cpu off s).bottom1_diff = s.bottom1_diff ∧
      (Backward_gpu off s).bottom1_diff = s.bottom1_diff := by
  refine ⟨rfl, ?_⟩
  intro α inst off s
  constructor
  · unfold Backward_cpu
    split <;> rfl
  · unfold Backward_gpu
    split <;> rfl

/-- Claim C4 witness: concrete instance with the propagate flag set for
the SegmentSpec slot; its gradient buffer is untouched. -/
theorem C4_no_gradient_to_segment_spec_witness :
    (Backward_cpu [1, 0] (BackwardState.mk ([5, 7] : List Int) [true, true] [0, 0] [9])).bottom1_diff
      = [9] :=
  (C4_no_gradient_to_segment_spec.2 Int [1, 0]
    (BackwardState.mk [5, 7] [true, true] [0, 0] [9])).1

/-- Claim C9: the CPU and accelerator implementations agree: for every
input state, `Forward_gpu` equals `Forward_cpu` and `Backward_gpu` equals
`Backward_cpu`; the variants differ only in how the copy/scatter loop is
expressed, never in the offset-mapping logic. -/
theorem C9_gpu_matches_cpu {α : Type} [Inhabited α] (s : ForwardState α)
    (off : List Nat) (sb : BackwardState α) :
    Forward_gpu s = Forward_cpu s ∧ Backward_gpu off sb = Backward_cpu off sb := by
  constructor
  · unfold Forward_gpu Forward_cpu
    simp only [foldr_set_range_eq_gather]
  · unfold Backward_gpu Backward_cpu
    split
    · rw [scatterGo_eq_scatter]
    · rfl

/-- Claim C9 witness: concrete agreement of the two variants on the
segment example and a backward state. -/
theorem C9_gpu_matches_cpu_witness :
    Forward_gpu (ForwardState.mk ([1, 2, 3, 4] : List Int) none [])
        = Forward_cpu (ForwardState.mk ([1, 2, 3, 4] : List Int) none []) ∧
    Backward_gpu [3, 2, 1, 0] (BackwardState.mk ([4, 5, 6, 7] : List Int) [true] [0, 0, 0, 0] [])
        = Backward_cpu [3, 2, 1, 0] (BackwardState.mk ([4, 5, 6, 7] : List Int) [true] [0, 0, 0, 0] []) :=
  C9_gpu_matches_cpu (ForwardState.mk [1, 2, 3, 4] none [])
    [3, 2, 1, 0] (BackwardState.mk [4, 5, 6, 7] [true] [0, 0, 0, 0] [])

/-- Claim C1: without a SegmentSpec input Forward performs a full batch
reversal: for every input of batch size `N` the offset map is
`Offsets[i] = N-1-i` for all `i < N`, so `output[i] = input[N-1-i]`; in
particular the scalar-per-example input `[10, 20, 30, 40]` produces
`[40, 30, 20, 10]`. -/
theorem C1_forward_full_reversal {α : Type} [Inhabited α] (input t : List α) (i : Nat)
    (hi : i < input.length) :
    (reverse_offsets input.length none).getD i 0 = input.length - 1 - i ∧
    (Forward_cpu (ForwardState.mk input none t)).top.getD i default
      = input.getD (input.length - 1 - i) default ∧
    (Forward_cpu (ForwardState.mk ([10, 20, 30, 40] : List Int) none [])).top
      = [40, 30, 20, 10] := by
  have hoff : (reverse_offsets input.length none).getD i 0 = input.length - 1 - i := by
    unfold reverse_offsets
    rw [List.getD_eq_getElem _ 0 (by simpa using hi)]
    simp
  refine ⟨hoff, ?_, by decide⟩
  show (gather (reverse_offsets input.length none) input).getD i default
    = input.getD (input.length - 1 - i) default
  unfold gather
  rw [List.getD_eq_getElem _ default
    (by rw [List.length_map, reverse_offsets_length]; exact hi)]
  rw [List.getElem_map]
  rw [← List.getD_eq_getElem (reverse_offsets input.length none) 0
    (by rw [reverse_offsets_length]; exact hi)]
  rw [hoff]

/-- Claim C1 witness: the general statement applied to the concrete input
`[10, 20, 30, 40]` at index 0. -/
theorem C1_forward_full_reversal_witness :
    (reverse_offsets ([10, 20, 30, 40] : List Int).length none).getD 0 0
        = ([10, 20, 30, 40] : List Int).length - 1 - 0 ∧
    (Forward_cpu (ForwardState.mk ([10, 20, 30, 40] : List Int) none [])).top.getD 0 default
        = ([10, 20, 30, 40] : List Int).getD (([10, 20, 30, 40] : List Int).length - 1 - 0) default ∧
    (Forward_cpu (ForwardState.mk ([10, 20, 30, 40] : List Int) none [])).top
        = [40, 30, 20, 10] :=
  C1_forward_full_reversal [10, 20, 30, 40] [] 0 (by decide)

/-- Claim C2: with a SegmentSpec input, Forward starts from the identity
offset map, then for each consecutive `(start, length)` pair read in
order up to the first negative start (or list exhaustion) sets
`Offsets[start+k] = start+length-1-k` for `k < length`; batch positions
outside every segment keep the identity mapping.  In particular, for 9
scalar examples `[1,...,9]` with SegmentSpec `[0,3,4,3,-1,-1]` the output
is `[3,2,1,4,7,6,5,8,9]`. -/
theorem C2_forward_with_segment_spec (N : Nat) (sspec : List Int)
    (hval : ValidSegments N (parseSegments sspec)) :
    (∀ i, i < N → (∀ p ∈ parseSegments sspec, ¬ (p.1 ≤ i ∧ i < p.1 + p.2)) →
        (reverse_offsets N (some sspec)).getD i 0 = i) ∧
    (∀ p ∈ parseSegments sspec, ∀ k, k < p.2 →
        (reverse_offsets N (some sspec)).getD (p.1 + k) 0 = p.1 + p.2 - 1 - k) ∧
    (Forward_cpu (ForwardState.mk ([1, 2, 3, 4, 5, 6, 7, 8, 9] : List Int)
        (some [0, 3, 4, 3, -1, -1]) [])).top = [3, 2, 1, 4, 7, 6, 5, 8, 9] := by
  obtain ⟨hrange, hdisj⟩ := hval
  refine ⟨?_, ?_, by decide⟩
  · intro i hi hout
    unfold reverse_offsets
    rw [foldl_applySegment_getD_of_out _ _ _ _ hout]
    rw [List.getD_eq_getElem _ 0 (by simpa using hi)]
    simp
  · intro p hp k hk
    have hin : p.1 + k < N := by
      have := hrange p hp
      omega
    rw [reverse_offsets_seg_getD N sspec hrange hdisj (p.1 + k) hin]
    rw [segMapFn_eq_of_mem (parseSegments sspec) hdisj p hp (p.1 + k) (by omega)]
    omega

/-- Claim C2 witness: the general statement instantiated at the spec's
example, `N = 9`, SegmentSpec `[0,3,4,3,-1,-1]`. -/
theorem C2_forward_with_segment_spec_witness :
    ((reverse_offsets 9 (some [0, 3, 4, 3, -1, -1])).getD 8 0 = 8) ∧
    (Forward_cpu (ForwardState.mk ([1, 2, 3, 4, 5, 6, 7, 8, 9] : List Int)
        (some [0, 3, 4, 3, -1, -1]) [])).top = [3, 2, 1, 4, 7, 6, 5, 8, 9] := by
  have h := C2_forward_with_segment_spec 9 [0, 3, 4, 3, -1, -1] (by decide)
  exact ⟨h.1 8 (by decide) (by decide), h.2.2⟩

/-- Claim C3: Backward inverts Forward.  For every valid SegmentSpec
(non-overlapping, in-range segments) and every gradient list `G` of the
output's size, scattering `G` through the forward offsets and gathering
back through the same offsets reproduces `G` exactly: the per-segment
offset map is an involution. -/
theorem C3_backward_inverts_forward {α : Type} [Inhabited α] (N : Nat) (sspec : List Int)
    (hval : ValidSegments N (parseSegments sspec)) (G pre : List α)
    (hG : G.length = N) (hpre : pre.length = N) :
    gather (reverse_offsets N (some sspec))
        (scatter N (reverse_offsets N (some sspec)) G pre) = G := by
  obtain ⟨hrange, hdisj⟩ := hval
  have hofflen : (reverse_offsets N (some sspec)).length = N :=
    reverse_offsets_length N (some sspec)
  have hchar : ∀ i, i < N →
      (reverse_offsets N (some sspec)).getD i 0 = segMapFn (parseSegments sspec) i :=
    fun i hi => reverse_offsets_seg_getD N sspec hrange hdisj i hi
  have hinj : ∀ a b, a < N → b < N →
      (reverse_offsets N (some sspec)).getD a 0 = (reverse_offsets N (some sspec)).getD b 0 →
      a = b := by
    intro a b ha hb he
    rw [hchar a ha, hchar b hb] at he
    have h2 := congrArg (segMapFn (parseSegments sspec)) he
    rwa [segMapFn_involution _ hdisj, segMapFn_involution _ hdisj] at h2
  have hlt : ∀ i, i < N → (reverse_offsets N (some sspec)).getD i 0 < pre.length := by
    intro i hi
    rw [hchar i hi, hpre]
    exact segMapFn_lt N _ hrange i hi
  apply List.ext_getElem
  · simp [gather, hofflen, hG]
  · intro i h1 h2
    have hiN : i < N := by
      have h3 := h1
      simp [gather, hofflen] at h3
      exact h3
    rw [← List.getD_eq_getElem _ default h1, ← List.getD_eq_getElem _ default h2]
    unfold gather
    rw [List.getD_eq_getElem
      (List.map (fun j => (scatter N (reverse_offsets N (some sspec)) G pre).getD j default)
        (reverse_offsets N (some sspec))) default
      (by rw [List.length_map, hofflen]; exact hiN)]
    rw [List.getElem_map]
    rw [← List.getD_eq_getElem (reverse_offsets N (some sspec)) 0 (by rw [hofflen]; exact hiN)]
    rw [scatter_getD_hit N (reverse_offsets N (some sspec)) G pre default hinj hlt i hiN]

/-- Claim C3 witness: round trip at the spec's example, scattering the
gradient `[1,...,9]` into a zero buffer and gathering it back. -/
theorem C3_backward_inverts_forward_witness :
    gather (reverse_offsets 9 (some [0, 3, 4, 3, -1, -1]))
        (scatter 9 (reverse_offsets 9 (some [0, 3, 4, 3, -1, -1]))
          ([1, 2, 3, 4, 5, 6, 7, 8, 9] : List Int) [0, 0, 0, 0, 0, 0, 0, 0, 0])
      = [1, 2, 3, 4, 5, 6, 7, 8, 9] :=
  C3_backward_inverts_forward 9 [0, 3, 4, 3, -1, -1] (by decide)
    [1, 2, 3, 4, 5, 6, 7, 8, 9] [0, 0, 0, 0, 0, 0, 0, 0, 0] (by decide) (by decide)

/-- Claim C5: the declared arity bounds are min 1 / max 2 bottoms and
exactly 1 top, and `Reshape` fails with `ShapeMismatch` exactly when
given 0 bottoms, 3 or more bottoms, a top count other than 1, or a
SegmentSpec implying segment indices outside `[0, N)`. -/
theorem C5_reshape_error_iff :
    MinBottomBlobs = 1 ∧ MaxBottomBlobs = 2 ∧ ExactNumTopBlobs = 1 ∧
    ∀ (nb nt : Nat) (sh : Shape) (sspec : Option (List Int)),
      Reshape nb nt sh sspec = Except.error ReshapeError.ShapeMismatch ↔
        (nb = 0 ∨ 3 ≤ nb ∨ nt ≠ 1 ∨
          ∃ s, sspec = some s ∧ ∃ p ∈ parseSegments s, sh.num < p.1 + p.2) := by
  refine ⟨rfl, rfl, rfl, ?_⟩
  intro nb nt sh sspec
  unfold Reshape
  split
  · rename_i harity
    unfold MinBottomBlobs MaxBottomBlobs ExactNumTopBlobs at harity
    split
    · rename_i hseg
      constructor
      · intro h
        exact absurd h (by simp)
      · intro h
        exfalso
        rcases h with h | h | h | ⟨s, hs, p, hp, hout⟩
        · omega
        · omega
        · exact h harity.2.2
        · subst hs
          simp only [specSegmentsInRange, List.all_eq_true, decide_eq_true_eq] at hseg
          exact absurd (hseg p hp) (by omega)
    · rename_i hseg
      constructor
      · intro _
        cases sspec with
        | none => exact absurd rfl hseg
        | some s =>
          refine Or.inr (Or.inr (Or.inr ⟨s, rfl, ?_⟩))
          by_contra hnone
          apply hseg
          simp only [specSegmentsInRange, List.all_eq_true, decide_eq_true_eq]
          intro p hp
          by_contra hlt
          exact hnone ⟨p, hp, by omega⟩
      · intro _
        rfl
  · rename_i harity
    unfold MinBottomBlobs MaxBottomBlobs ExactNumTopBlobs at harity
    constructor
    · intro _
      by_cases hb0 : nb = 0
      · exact Or.inl hb0
      by_cases hb3 : 3 ≤ nb
      · exact Or.inr (Or.inl hb3)
      · refine Or.inr (Or.inr (Or.inl ?_))
        intro hnt
        exact harity ⟨by omega, by omega, hnt⟩
    · intro _
      rfl

/-- Claim C5 witness: `Reshape` with 0 bottoms fails, via the
characterisation. -/
theorem C5_reshape_error_iff_witness :
    Reshape 0 1 (Shape.mk 4 1 1 1) none = Except.error ReshapeError.ShapeMismatch :=
  (C5_reshape_error_iff.2.2.2 0 1 (Shape.mk 4 1 1 1) none).mpr (Or.inl rfl)

/-- Claim C6: on success, `Reshape` gives the single top blob exactly the
primary input's shape `(N, C, H, W)`, sizes the internal offsets array to
`N` (as the offset map indeed always has length `N`), and computes the
per-example unit size `C·H·W`. -/
theorem C6_reshape_preserves_shape (nb nt : Nat) (sh : Shape) (sspec : Option (List Int))
    (r : ReshapeResult) (h : Reshape nb nt sh sspec = Except.ok r) :
    r.topShape = sh ∧ r.offsetsLen = sh.num ∧
    r.unitSize = sh.channels * sh.height * sh.width ∧
    (reverse_offsets sh.num sspec).length = sh.num := by
  unfold Reshape at h
  split at h
  · split at h
    · injection h with h
      subst h
      exact ⟨rfl, rfl, rfl, reverse_offsets_length sh.num sspec⟩
    · exact absurd h (by simp)
  · exact absurd h (by simp)

/-- Claim C6 witness: reshape of a `(4, 2, 3, 5)` input with one bottom
and one top succeeds with identical top shape, offsets length 4 and unit
size 30. -/
theorem C6_reshape_preserves_shape_witness :
    (ReshapeResult.mk (Shape.mk 4 2 3 5) 4 30).topShape = Shape.mk 4 2 3 5 ∧
    (ReshapeResult.mk (Shape.mk 4 2 3 5) 4 30).offsetsLen = (Shape.mk 4 2 3 5).num ∧
    (ReshapeResult.mk (Shape.mk 4 2 3 5) 4 30).unitSize
        = (Shape.mk 4 2 3 5).channels * (Shape.mk 4 2 3 5).height * (Shape.mk 4 2 3 5).width ∧
    (reverse_offsets (Shape.mk 4 2 3 5).num none).length = (Shape.mk 4 2 3 5).num :=
  C6_reshape_preserves_shape 1 1 (Shape.mk 4 2 3 5) none
    (ReshapeResult.mk (Shape.mk 4 2 3 5) 4 30) rfl

/-- Claim C7: when the primary input's propagate flag is true, Backward
performs the inverse scatter `input_grad[Offsets[i]] = output_grad[i]`
for every batch index `i`, overwriting (not accumulating into) the
pre-existing gradient contents, while untouched positions keep them;
when the flag is false, Backward is a no-op. -/
theorem C7_backward_scatter {α : Type} [Inhabited α] (off : List Nat) (s : BackwardState α) :
    (s.propagate_down.getD 0 false = false → Backward_cpu off s = s) ∧
    (s.propagate_down.getD 0 false = true →
      (Backward_cpu off s).bottom0_diff
          = scatter s.bottom0_diff.length off s.top_diff s.bottom0_diff ∧
      ((∀ a b, a < s.bottom0_diff.length → b < s.bottom0_diff.length →
          off.getD a 0 = off.getD b 0 → a = b) →
        (∀ j, j < s.bottom0_diff.length → off.getD j 0 < s.bottom0_diff.length) →
        ∀ i, i < s.bottom0_diff.length →
          (Backward_cpu off s).bottom0_diff.getD (off.getD i 0) default
            = s.top_diff.getD i default) ∧
      (∀ j, (∀ i, i < s.bottom0_diff.length → off.getD i 0 ≠ j) →
        (Backward_cpu off s).bottom0_diff.getD j default
          = s.bottom0_diff.getD j default)) := by
  constructor
  · intro hflag
    unfold Backward_cpu
    rw [hflag]
    simp
  · intro hflag
    have hB : Backward_cpu off s
        = { s with bottom0_diff := scatter s.bottom0_diff.length off s.top_diff s.bottom0_diff } := by
      unfold Backward_cpu
      rw [hflag]
      simp
    refine ⟨by rw [hB], ?_, ?_⟩
    · intro hinj hlt i hi
      rw [hB]
      exact scatter_getD_hit s.bottom0_diff.length off s.top_diff s.bottom0_diff default
        hinj hlt i hi
    · intro j hj
      rw [hB]
      exact scatter_getD_miss s.bottom0_diff.length off s.top_diff s.bottom0_diff j default hj

/-- Claim C7 witness: with the flag false Backward leaves the state
unchanged; with the flag true it overwrites the primary gradient buffer
with the scatter of the top gradient. -/
theorem C7_backward_scatter_witness :
    Backward_cpu [1, 0] (BackwardState.mk ([5, 7] : List Int) [false] [1, 2] [])
        = BackwardState.mk ([5, 7] : List Int) [false] [1, 2] [] ∧
    (Backward_cpu [1, 0] (BackwardState.mk ([5, 7] : List Int) [true] [1, 2] [])).bottom0_diff
        = scatter 2 [1, 0] [5, 7] [1, 2] :=
  ⟨(C7_backward_scatter [1, 0] (BackwardState.mk [5, 7] [false] [1, 2] [])).1 rfl,
   ((C7_backward_scatter [1, 0] (BackwardState.mk [5, 7] [true] [1, 2] [])).2 rfl).1⟩

/-- Claim C8: Forward is a pure gather with no input mutation: it leaves
both input blobs unchanged, fully overwrites the top blob (the result is
independent of the top blob's previous contents and has the input's
length), and moves values untouched: `output[i] = input[Offsets[i]]`
element-wise. -/
theorem C8_forward_pure_gather {α : Type} [Inhabited α] (s : ForwardState α) :
    (Forward_cpu s).bottom0 = s.bottom0 ∧
    (Forward_cpu s).bottom1 = s.bottom1 ∧
    (Forward_cpu s).top.length = s.bottom0.length ∧
    (∀ t2 : List α, (Forward_cpu (ForwardState.mk s.bottom0 s.bottom1 t2)).top
        = (Forward_cpu s).top) ∧
    ∀ i, i < s.bottom0.length →
      (Forward_cpu s).top.getD i default
        = s.bottom0.getD ((reverse_offsets s.bottom0.length s.bottom1).getD i 0) default := by
  refine ⟨rfl, rfl, ?_, fun t2 => rfl, ?_⟩
  · show (gather (reverse_offsets s.bottom0.length s.bottom1) s.bottom0).length = _
    simp [gather, reverse_offsets_length]
  · intro i hi
    show (gather (reverse_offsets s.bottom0.length s.bottom1) s.bottom0).getD i default = _
    unfold gather
    rw [List.getD_eq_getElem _ default
      (by rw [List.length_map, reverse_offsets_length]; exact hi)]
    rw [List.getElem_map]
    rw [← List.getD_eq_getElem (reverse_offsets s.bottom0.length s.bottom1) 0
      (by rw [reverse_offsets_length]; exact hi)]

/-- Claim C8 witness: concrete instance at input `[3, 4]` with a stale
top blob `[9]`. -/
theorem C8_forward_pure_gather_witness :
    (Forward_cpu (ForwardState.mk ([3, 4] : List Int) none [9])).bottom0 = [3, 4] ∧
    (Forward_cpu (ForwardState.mk ([3, 4] : List Int) none [9])).top.getD 0 default
        = ([3, 4] : List Int).getD ((reverse_offsets 2 none).getD 0 0) default :=
  ⟨(C8_forward_pure_gather (ForwardState.mk [3, 4] none [9])).1,
   (C8_forward_pure_gather (ForwardState.mk [3, 4] none [9])).2.2.2.2 0 (by decide)⟩

end ReverseLayer
